import Mathlib

/-!
Shallow embedding of the pattern-detection engine of the `stocks` repository
(`src/patterns/`), together with theorems settling the frozen claims about it.

Modelling conventions, used consistently below:
* Prices, percentages and confidences are modelled as exact rationals (`ℚ`);
  the Python code computes with IEEE doubles, and every concrete evaluation in
  this file is placed far from any comparison threshold, so the exact-rational
  and floating-point runs agree on every branch taken.
* Timestamps (`pd.Timestamp` values of the `DatetimeIndex`) are modelled as
  integer day numbers (`Date := ℤ`); the series the engine accepts carry
  date-granular timestamps (daily/weekly/monthly bars), and the only
  arithmetic performed on them is subtraction (`Timedelta.days`), ordering,
  `min` and `max`.
* A raised Python exception is modelled by `Option.none`; a normal return of a
  match list by `Option.some`.  Detectors whose body can never raise keep the
  bare `List` type.
* `np.std` is `Rat.sqrt ∘ variance` (population variance).  `Rat.sqrt` is
  exact whenever the radicand is a perfect rational square, which holds at
  every concrete series evaluated in this file (all of them produce variance
  zero at the point where a standard deviation is taken).
-/

namespace Stocks

/-- A normalized timestamp, as the day number of a calendar date. -/
abbrev Date := ℤ

/-- The fields of `PatternMatch` (src/patterns/base.py) that the detection
logic reads or writes and the claims mention.  The free-text description and
the drawing annotations are carried along by the Python code but never branch
the computation, so they are not modelled. -/
structure PatternMatch where
  startDate : Date
  endDate : Date
  confidence : ℚ
deriving Repr, DecidableEq

/-- `PatternMatch.is_active_today` (src/patterns/base.py lines 39-43):
`self.end_date.normalize() >= pd.Timestamp.now().normalize() - pd.Timedelta(days=3)`,
with the current date passed explicitly. -/
def isActiveToday (m : PatternMatch) (today : Date) : Bool :=
  today - 3 ≤ m.endDate

/-- Index resolution of `np.take(..., mode='clip')`: out-of-range positions
are clamped to the first/last index. -/
def clipIdx (n : ℕ) (i : ℤ) : ℕ :=
  if i < 0 then 0 else min i.toNat (n - 1)

/-- `scipy.signal.argrelextrema(v, cmp, order=k)` with the default
`mode='clip'` (as every detector calls it): index `i` is reported iff
`cmp v[i] v[clip(i+s)]` and `cmp v[i] v[clip(i-s)]` hold for every shift
`s = 1..k`.  The result is the ascending list of reported indices. -/
def relExtrema (v : List ℚ) (cmp : ℚ → ℚ → Bool) (order : ℕ) : List ℕ :=
  (List.range v.length).filter fun i =>
    (List.range order).all fun s =>
      cmp (v.getD i 0) (v.getD (clipIdx v.length ((i : ℤ) + ((s : ℤ) + 1))) 0) &&
      cmp (v.getD i 0) (v.getD (clipIdx v.length ((i : ℤ) - ((s : ℤ) + 1))) 0)

/-- `argrelextrema(v, np.greater_equal, order=k)[0]`. -/
def localMaxIdx (v : List ℚ) (order : ℕ) : List ℕ :=
  relExtrema v (fun a b => b ≤ a) order

/-- `argrelextrema(v, np.less_equal, order=k)[0]`. -/
def localMinIdx (v : List ℚ) (order : ℕ) : List ℕ :=
  relExtrema v (fun a b => a ≤ b) order

/-- `np.mean`. -/
def mean (l : List ℚ) : ℚ := l.sum / l.length

/-- Population variance, the square of `np.std`. -/
def variance (l : List ℚ) : ℚ :=
  (l.map fun x => (x - mean l) ^ 2).sum / l.length

/-- `np.std` (population).  Exact whenever `variance l` is a perfect rational
square; see the module docstring. -/
def stdQ (l : List ℚ) : ℚ := Rat.sqrt (variance l)

/-- `np.diff`: consecutive differences `l[i+1] - l[i]`. -/
def diffs (l : List ℚ) : List ℚ := List.zipWith (fun a b => b - a) l l.tail

/-- Python slice `l[a:b]` (for the in-range uses the detectors make). -/
def pySlice (l : List ℚ) (a b : ℕ) : List ℚ := (l.drop a).take (b - a)

/-- Minimum of a list (`np.min`); 0 on the empty list, never taken that way. -/
def minQ : List ℚ → ℚ
  | [] => 0
  | [x] => x
  | x :: y :: xs => min x (minQ (y :: xs))

/-- `np.argmin`: index of the first occurrence of the minimum. -/
def argminQ : List ℚ → ℕ
  | [] => 0
  | [_] => 0
  | x :: y :: xs => if x ≤ minQ (y :: xs) then 0 else argminQ (y :: xs) + 1

/-- `round(x, 2)` applied to every confidence the detectors emit.  Python
rounds the shortest decimal form of the binary double half-to-even; every
confidence evaluated concretely in this file has an exact two-decimal value,
where all rounding modes coincide. -/
def roundCenti (x : ℚ) : ℚ := (round (x * 100) : ℤ) / 100

/-- Overlap test of the shared `_deduplicate`:
`max(m.start_date, k.start_date) < min(m.end_date, k.end_date)`. -/
def overlapB (m k : PatternMatch) : Bool :=
  max m.startDate k.startDate < min m.endDate k.endDate

/-- Stable insertion into a confidence-descending list of the elements that
followed `m` in the original order: on ties `m` stays to their left. -/
def insertDesc (m : PatternMatch) : List PatternMatch → List PatternMatch
  | [] => [m]
  | k :: rest => if k.confidence ≤ m.confidence then m :: k :: rest
                 else k :: insertDesc m rest

/-- `matches.sort(key=lambda m: m.confidence, reverse=True)`: a stable sort
descending by confidence.  A stable sort is extensionally determined by the
key order together with stability, so this insertion sort computes exactly the
list CPython's Timsort produces. -/
def sortConfDesc : List PatternMatch → List PatternMatch
  | [] => []
  | m :: rest => insertDesc m (sortConfDesc rest)

/-- The greedy keep loop of `_deduplicate`: accept each candidate iff it
overlaps no already-kept match. -/
def dedupGo (kept : List PatternMatch) : List PatternMatch → List PatternMatch
  | [] => kept
  | m :: rest =>
      if kept.any fun k => overlapB m k then dedupGo kept rest
      else dedupGo (kept ++ [m]) rest

/-- `_deduplicate` (identical static method on all six detectors, e.g.
src/patterns/falling_wedge.py lines 131-148): sort descending by confidence,
then greedily keep non-overlapping matches. -/
def deduplicate (ms : List PatternMatch) : List PatternMatch :=
  dedupGo [] (sortConfDesc ms)

/-- The columns of the OHLCV DataFrame the embedded detectors read, plus the
index.  (`Open` and `Close` are carried by the frame; of the detectors
embedded here none branches on them — VCP and Cup-and-Handle read `Close`
into a local that is never used.) -/
structure Bars where
  highs : List ℚ
  lows : List ℚ
  volumes : List ℚ
  dates : List Date
deriving Repr

/-- `len(df)`. -/
def barsLen (b : Bars) : ℕ := b.dates.length

/-- `(df.index[1] - df.index[0]).days`, defined when the series has two bars. -/
def firstGapDays (b : Bars) : Option ℤ :=
  match b.dates with
  | d0 :: d1 :: _ => some (d1 - d0)
  | _ => none

/-! ## VCPDetector (src/patterns/vcp.py) -/

/-- `is_daily = len(df) > 100 or (df.index[1] - df.index[0]).days == 1`
(vcp.py line 33).  The `or` short-circuits, so the index access — which
raises `IndexError` on a series of fewer than two bars, modelled by `none` —
is only reached when `len(df) <= 100`. -/
def vcpIsDaily (b : Bars) : Option Bool :=
  if 100 < barsLen b then some true
  else (firstGapDays b).map fun g => decide (g = 1)

/-- `min_len = 60 if is_daily else 24` (vcp.py line 34). -/
def vcpMinLen (isDaily : Bool) : ℕ := if isDaily then 60 else 24

/-- `min_contractions = 2 if is_daily else 1` (vcp.py line 90). -/
def vcpMinContractions (isDaily : Bool) : ℕ := if isDaily then 2 else 1

/-- One collected contraction record (vcp.py lines 79-85). -/
structure Contraction where
  lowIdx : ℕ
  highIdx : ℕ
  lowVal : ℚ
  highVal : ℚ
  rangePct : ℚ
deriving Repr, DecidableEq

/-- The contraction-collection loop (vcp.py lines 59-87): at most five times,
take the first local-minimum index strictly after the search start, then the
first local-maximum index strictly after that low; either missing ends the
loop. -/
def vcpCollectGo (highs lows : List ℚ) (maxIdx minIdx : List ℕ) (pivotHigh : ℚ) :
    ℕ → ℕ → List Contraction → List Contraction
  | 0, _, acc => acc.reverse
  | fuel + 1, searchStart, acc =>
    match (minIdx.filter fun i => searchStart < i).head? with
    | none => acc.reverse
    | some nextLow =>
      match (maxIdx.filter fun i => nextLow < i).head? with
      | none => acc.reverse
      | some nextHigh =>
        let lowVal := lows.getD nextLow 0
        let highVal := highs.getD nextHigh 0
        let rangePct := (highVal - lowVal) / pivotHigh * 100
        vcpCollectGo highs lows maxIdx minIdx pivotHigh fuel nextHigh
          (⟨nextLow, nextHigh, lowVal, highVal, rangePct⟩ :: acc)

/-- The contractions collected for one pivot high. -/
def vcpContractions (b : Bars) (maxIdx minIdx : List ℕ) (pivotIdx : ℕ) :
    List Contraction :=
  vcpCollectGo b.highs b.lows maxIdx minIdx (b.highs.getD pivotIdx 0) 5 pivotIdx []

/-- Candidate filtering and scoring for one pivot high (vcp.py lines 89-176);
`none` models `continue`. -/
def vcpPivotMatch (b : Bars) (maxIdx minIdx : List ℕ) (isDaily : Bool)
    (pivotIdx : ℕ) : Option PatternMatch :=
  let pivotHigh := b.highs.getD pivotIdx 0
  let cs := vcpContractions b maxIdx minIdx pivotIdx
  if cs.length < vcpMinContractions isDaily then none
  else
    let ranges := cs.map (·.rangePct)
    let rFirst := ranges.headD 0
    let rLast := ranges.getLastD 0
    -- each contraction strictly smaller than the previous (line 96)
    let decOk := (ranges.zip ranges.tail).all fun p => p.2 < p.1
    if 1 < ranges.length ∧ ¬decOk then none
    else if ¬((cs.map (·.highVal)).all fun hv => |hv - pivotHigh| / pivotHigh < 0.08)
    then none  -- ceiling check (line 101)
    else
      let tight := if 1 < ranges.length
        then rLast ≤ rFirst * 0.8 ∨ rLast < 10
        else rFirst < 15
      if ¬tight then none
      else
        let startIdx := pivotIdx
        let endIdx := (cs.getLastD ⟨0, 0, 0, 0, 0⟩).highIdx
        let volContracting :=
          if startIdx + 5 < endIdx then
            let half := (endIdx - startIdx) / 2
            decide (mean (b.volumes.drop (startIdx + half) |>.take (endIdx - (startIdx + half)))
                  < mean (b.volumes.drop startIdx |>.take half))
          else true
        let conf0 : ℚ := 0.4 + 0.15 * (min cs.length 4 : ℚ) / 4
            + (if volContracting then 0.15 else 0)
            + (if 1 < ranges.length then 0.1 * (1 - rLast / rFirst) else 0.05)
        some ⟨b.dates.getD startIdx 0, b.dates.getD endIdx 0,
              roundCenti (min 0.95 conf0)⟩

/-- `VCPDetector.detect` (vcp.py lines 31-180).  `none` models the
`IndexError` raised by the cadence probe on a series of fewer than two bars;
otherwise the deduplicated matches over all pivots except the last local
maximum (`range(len(local_max_idx) - 1)`). -/
def vcpDetect (b : Bars) : Option (List PatternMatch) :=
  (vcpIsDaily b).map fun isDaily =>
    if barsLen b < vcpMinLen isDaily then []
    else
      let order := max 2 (barsLen b / 20)
      let maxIdx := localMaxIdx b.highs order
      let minIdx := localMinIdx b.lows order
      if maxIdx.length < 2 ∨ minIdx.length < 2 then []
      else deduplicate (maxIdx.dropLast.filterMap (vcpPivotMatch b maxIdx minIdx isDaily))

/-! ## AscendingTriangleDetector (src/patterns/ascending_triangle.py) -/

/-- `np.polyfit(xs, ys, 1)`: ordinary least-squares line, returned as
(slope, intercept).  The closed form below equals the polynomial numpy fits,
evaluated in exact arithmetic. -/
def polyfit1 (xs ys : List ℚ) : ℚ × ℚ :=
  let n : ℚ := xs.length
  let sx := xs.sum
  let sy := ys.sum
  let sxx := (xs.map (· ^ 2)).sum
  let sxy := (List.zipWith (· * ·) xs ys).sum
  let slope := (n * sxy - sx * sy) / (n * sxx - sx ^ 2)
  (slope, (sy - slope * sx) / n)

/-- One (i, j) window of the sliding search (ascending_triangle.py lines
48-144): three consecutive local maxima paired with three consecutive local
minima; `none` models `continue`. -/
def ascTriCandidate (b : Bars) (maxIdx minIdx : List ℕ) (i j : ℕ) :
    Option PatternMatch :=
  let maxIs := (maxIdx.drop i).take 3
  let minIs := (minIdx.drop j).take 3
  let startI := min (maxIs.headD 0) (minIs.headD 0)
  let endI := max (maxIs.getLastD 0) (minIs.getLastD 0)
  if endI - startI < 15 ∨ 120 < endI - startI then none
  else
    let maxVals := maxIs.map (b.highs.getD · 0)
    let minVals := minIs.map (b.lows.getD · 0)
    let maxStdPct := stdQ maxVals / mean maxVals
    if 0.015 < maxStdPct then none  -- flat-resistance tolerance (line 64)
    else if ¬((minVals.zip minVals.tail).all fun p => 0 < p.2 - p.1)
    then none  -- rising support: np.diff(min_vals) > 0 (line 68)
    else
      let minSlope := (polyfit1 (minIs.map (fun k => (k : ℚ))) minVals).1
      let maxSlope := (polyfit1 (maxIs.map (fun k => (k : ℚ))) maxVals).1
      if |minSlope| * 0.4 < |maxSlope| then none  -- line 76
      else if minSlope ≤ 0 then none  -- line 79
      else
        -- the apex computation (lines 82-89) is dead code: its inner branch
        -- is `pass`, so it affects nothing and is not modelled
        let currentRange := b.highs.getD endI 0 - b.lows.getD endI 0
        let startRange := b.highs.getD startI 0 - b.lows.getD startI 0
        let conf0 : ℚ := 0.5 + 0.2 * (1 - maxStdPct / 0.015)
            + (if 0 < startRange then 0.2 * (1 - currentRange / startRange) else 0)
        some ⟨b.dates.getD startI 0, b.dates.getD endI 0,
              roundCenti (min 0.95 (max 0.4 conf0))⟩

/-- `AscendingTriangleDetector.detect` (ascending_triangle.py lines 30-146). -/
def ascTriDetect (b : Bars) : List PatternMatch :=
  if barsLen b < 30 then []
  else
    let maxIdx := localMaxIdx b.highs 5
    let minIdx := localMinIdx b.lows 5
    if maxIdx.length < 3 ∨ minIdx.length < 3 then []
    else deduplicate <|
      (List.range (maxIdx.length - 2)).flatMap fun i =>
        (List.range (minIdx.length - 2)).filterMap fun j =>
          ascTriCandidate b maxIdx minIdx i j

/-! ## CupAndHandleDetector (src/patterns/cup_and_handle.py) -/

/-- The handle search (cup_and_handle.py lines 104-121), returning
`(has_handle, handle_end_idx)`: within `cup_width // 3` bars after the right
rim (clamped to the series end), locate the lowest low; the handle is
recognized iff its depth, as a fraction of the right-rim price, is strictly
between `0.02` and `cup_depth * 0.5`.  With no room for a handle
(window of at most three bars past the rim) the match ends at the rim. -/
def cupHandle (lows : List ℚ) (n rightRimIdx cupWidth : ℕ) (rightRim cupDepth : ℚ) :
    Bool × ℕ :=
  let searchEnd := min (rightRimIdx + cupWidth / 3) (n - 1)
  if searchEnd ≤ rightRimIdx + 3 then (false, rightRimIdx)
  else
    let handleLow := lows.getD (rightRimIdx + argminQ (pySlice lows rightRimIdx (searchEnd + 1))) 0
    let depthPct := (rightRim - handleLow) / rightRim
    let hasHandle := decide (0.02 < depthPct ∧ depthPct < cupDepth * 0.5)
    (hasHandle, if hasHandle then searchEnd else rightRimIdx)

/-- One rim pair of the cup search (cup_and_handle.py lines 50-190); `none`
models `continue`. -/
def cupCandidate (b : Bars) (leftRimIdx rightRimIdx : ℕ) : Option PatternMatch :=
  let leftRim := b.highs.getD leftRimIdx 0
  let rightRim := b.highs.getD rightRimIdx 0
  let cupWidth := rightRimIdx - leftRimIdx
  if cupWidth < 20 ∨ 150 < cupWidth then none
  else
    let rimDiff := |leftRim - rightRim| / max leftRim rightRim
    if 0.08 < rimDiff then none
    else
      let cupSection := pySlice b.lows leftRimIdx (rightRimIdx + 1)
      let bottomRel := argminQ cupSection
      let bottomIdx := leftRimIdx + bottomRel
      let cupBottom := b.lows.getD bottomIdx 0
      let rimAvg := (leftRim + rightRim) / 2
      let cupDepth := (rimAvg - cupBottom) / rimAvg
      if cupDepth < 0.12 ∨ 0.5 < cupDepth then none
      else
        let centerPos := (bottomRel : ℚ) / cupWidth
        if centerPos < 0.25 ∨ 0.75 < centerPos then none
        else
          -- U-shape test (lines 86-102): mean of the two halves' diff
          -- standard deviations, normalized by the rim-to-bottom range
          let vRejected :=
            if 3 < (pySlice b.lows leftRimIdx (bottomIdx + 1)).length ∧
               3 < (pySlice b.lows bottomIdx (rightRimIdx + 1)).length then
              let smoothness := (stdQ (diffs (pySlice b.lows leftRimIdx (bottomIdx + 1)))
                  + stdQ (diffs (pySlice b.lows bottomIdx (rightRimIdx + 1)))) / 2
              let priceRange := rimAvg - cupBottom
              if 0 < priceRange then decide (0.5 < smoothness / priceRange) else false
            else false
          if vRejected then none
          else
            let hh := cupHandle b.lows (barsLen b) rightRimIdx cupWidth rightRim cupDepth
            let conf0 : ℚ := 0.4 + 0.15 * (1 - rimDiff / 0.08)
                + 0.1 * (1 - |centerPos - 0.5| / 0.25)
                + (if hh.1 then 0.15 else 0)
                + (if 0.15 < cupDepth then 0.1 else 0)
            some ⟨b.dates.getD leftRimIdx 0, b.dates.getD hh.2 0,
                  roundCenti (min 0.95 (max 0.3 conf0))⟩

/-- `CupAndHandleDetector.detect` (cup_and_handle.py lines 31-193). -/
def cupDetect (b : Bars) : List PatternMatch :=
  if barsLen b < 40 then []
  else
    let maxIdx := localMaxIdx b.highs 8
    let minIdx := localMinIdx b.lows 8
    if maxIdx.length < 2 ∨ minIdx.length < 1 then []
    else deduplicate <|
      (List.range maxIdx.length).flatMap fun i =>
        ((List.range maxIdx.length).drop (i + 1)).filterMap fun j =>
          cupCandidate b (maxIdx.getD i 0) (maxIdx.getD j 0)

/-! ## The handle rule as the specification words it

The spec describes the optional handle as "a subsequent pullback retracing
2%–50% of cup depth within width/3 bars after the right rim".  The following
definition renders those words: the deepest pullback low within
`cup_width/3` bars after the right rim, measured as a fraction of the
(absolute) cup depth.  It exists to be compared against `cupHandle`, whose
`0.02` lower bound is a fraction of the right-rim price instead. -/

/-- Fraction of the cup depth retraced by the deepest pullback in the handle
window, following the spec's words (`cupDepthAbs` is the rim-average price
minus the cup-bottom price). -/
def specHandleRetraceOfCupDepth (lows : List ℚ) (n rightRimIdx cupWidth : ℕ)
    (rightRim cupDepthAbs : ℚ) : ℚ :=
  let searchEnd := min (rightRimIdx + cupWidth / 3) (n - 1)
  (rightRim - minQ (pySlice lows rightRimIdx (searchEnd + 1))) / cupDepthAbs

/-! ## Concrete input series used by the claim evaluations

All of them are valid OHLCV inputs: every bar has `0 < Low ≤ High`, the
timestamps are strictly increasing, and volumes are positive. -/

/-- A 28-bar weekly series (bars 7 days apart).  Its high/low structure is
chosen so that VCP's pivot at bar 4 collects exactly two "contractions" whose
`(high - low)` ranges are negative (each contraction's low, taken at an
earlier bar than its high, sits above that high), making
`ranges[-1]/ranges[0] = 10.05` and hence the confidence term
`0.1 * (1 - 10.05)` strongly negative. -/
def c2bars : Bars :=
  { highs := [90, 94, 96, 98, 100, 99, 97, 96, 95, 94, 94.5, 94.2, 91, 92,
              92.5, 91.5, 90, 95, 118, 119, 117.5, 118.5, 117.3, 100, 103, 107, 104, 102]
    lows := [89, 88.5, 88, 87.5, 87, 90, 92, 94.3, 94, 93.5, 93.8, 93.9, 89, 89.5,
             90, 90.5, 91, 92, 117.5, 118.5, 117.05, 117.2, 117.1, 98, 97, 96, 95, 95.5]
    volumes := List.replicate 28 1000
    dates := (List.range 28).map fun i => 7 * (i : ℤ) }

/-- Lows of a 41-bar daily series containing a perfectly linear, symmetric
V-shaped dip: flat at 99, straight descent of 2 per bar from bar 8 to 75 at
bar 20, straight ascent of 2 per bar back to 99 at bar 32, then flat. -/
def c6lows : List ℚ := (List.range 41).map fun i =>
  if i ≤ 7 then 99 else if i ≤ 20 then 99 - 2 * ((i : ℚ) - 8)
  else if i ≤ 32 then 75 + 2 * ((i : ℚ) - 20) else 99

/-- Highs of the V-dip series: equal rims of 100 at bars 8 and 32, interior
highs one unit above the lows, 99.5 elsewhere. -/
def c6highs : List ℚ := (List.range 41).map fun i =>
  if i ≤ 7 then 99.5 else if i = 8 then 100
  else if i ≤ 20 then 100 - 2 * ((i : ℚ) - 8)
  else if i ≤ 31 then 76 + 2 * ((i : ℚ) - 20)
  else if i = 32 then 100 else 99.5

/-- The V-dip series: rims pass the equality check (identical at 100), cup
depth 25% passes the depth check, and the bottom sits exactly mid-span. -/
def c6bars : Bars :=
  ⟨c6highs, c6lows, List.replicate 41 1000, (List.range 41).map fun i => (i : ℤ)⟩

/-- The V-dip series with one extra pullback low of 98.75 at bar 36, inside
the handle window after the right rim: depth 1.25, which is 5% of the cup
depth (25) but only 1.25% of the right-rim price (100). -/
def c7lows : List ℚ := (List.range 41).map fun i =>
  if i = 36 then 98.75 else
  if i ≤ 7 then 99 else if i ≤ 20 then 99 - 2 * ((i : ℚ) - 8)
  else if i ≤ 32 then 75 + 2 * ((i : ℚ) - 20) else 99

/-- The series for the handle-bound claim. -/
def c7bars : Bars :=
  ⟨c6highs, c7lows, List.replicate 41 1000, (List.range 41).map fun i => (i : ℤ)⟩

/-! ## Properties of the deduplicator -/

theorem overlapB_false {m k : PatternMatch} (h : overlapB m k = false) :
    min m.endDate k.endDate ≤ max m.startDate k.startDate := by
  unfold overlapB at h
  rw [decide_eq_false_iff_not] at h
  exact le_of_not_lt h

theorem dedupGo_pairwise (l kept : List PatternMatch)
    (h : kept.Pairwise fun a b => min a.endDate b.endDate ≤ max a.startDate b.startDate) :
    (dedupGo kept l).Pairwise fun a b =>
      min a.endDate b.endDate ≤ max a.startDate b.startDate := by
  induction l generalizing kept with
  | nil => simpa [dedupGo] using h
  | cons m rest ih =>
    rw [dedupGo]
    split
    · exact ih kept h
    · next hany =>
      apply ih
      rw [List.pairwise_append]
      refine ⟨h, List.pairwise_singleton _ _, ?_⟩
      intro a ha b hb
      rw [List.mem_singleton] at hb
      subst hb
      simp only [List.any_eq_true, not_exists, not_and, Bool.not_eq_true] at hany
      have hle := overlapB_false (hany a ha)
      rw [min_comm, max_comm] at hle
      exact hle

theorem mem_insertDesc {x m : PatternMatch} {l : List PatternMatch} :
    x ∈ insertDesc m l ↔ x = m ∨ x ∈ l := by
  induction l with
  | nil => simp [insertDesc]
  | cons k rest ih =>
    rw [insertDesc]
    split
    · simp only [List.mem_cons]
    · simp only [List.mem_cons, ih]
      tauto

theorem mem_sortConfDesc {x : PatternMatch} {l : List PatternMatch} :
    x ∈ sortConfDesc l ↔ x ∈ l := by
  induction l with
  | nil => simp [sortConfDesc]
  | cons m rest ih =>
    rw [sortConfDesc, mem_insertDesc]
    simp [ih]

theorem pairwise_insertDesc (m : PatternMatch) (l : List PatternMatch)
    (h : l.Pairwise fun a b => b.confidence ≤ a.confidence) :
    (insertDesc m l).Pairwise fun a b => b.confidence ≤ a.confidence := by
  induction l with
  | nil => simp [insertDesc]
  | cons k rest ih =>
    rw [List.pairwise_cons] at h
    obtain ⟨hk, hrest⟩ := h
    rw [insertDesc]
    split
    · next hle =>
      rw [List.pairwise_cons]
      refine ⟨?_, List.pairwise_cons.mpr ⟨hk, hrest⟩⟩
      intro y hy
      rcases List.mem_cons.mp hy with rfl | hy2
      · exact hle
      · exact le_trans (hk y hy2) hle
    · next hgt =>
      rw [not_le] at hgt
      rw [List.pairwise_cons]
      refine ⟨?_, ih hrest⟩
      intro y hy
      rcases mem_insertDesc.mp hy with rfl | hy2
      · exact le_of_lt hgt
      · exact hk y hy2

theorem pairwise_sortConfDesc (l : List PatternMatch) :
    (sortConfDesc l).Pairwise fun a b => b.confidence ≤ a.confidence := by
  induction l with
  | nil => simp [sortConfDesc]
  | cons m rest ih =>
    rw [sortConfDesc]
    exact pairwise_insertDesc m _ ih

theorem mem_dedupGo_of_mem (l : List PatternMatch) (kept : List PatternMatch)
    (x : PatternMatch) (hx : x ∈ kept) : x ∈ dedupGo kept l := by
  induction l generalizing kept with
  | nil => simpa [dedupGo] using hx
  | cons m rest ih =>
    rw [dedupGo]
    split
    · exact ih kept hx
    · exact ih _ (List.mem_append_left _ hx)

/-- C3: for any raw candidate list, any two distinct matches kept by the
deduplicator have non-overlapping `[start_date, end_date)` intervals:
`max(start1, start2) ≥ min(end1, end2)`. -/
theorem claim3_dedup_kept_non_overlapping (ms : List PatternMatch) :
    (deduplicate ms).Pairwise fun a b =>
      min a.endDate b.endDate ≤ max a.startDate b.startDate :=
  dedupGo_pairwise (sortConfDesc ms) [] List.Pairwise.nil

/-- C9: if the raw candidate list contains a match of strictly highest
confidence that overlaps no other candidate, the deduplicator always keeps
it. -/
theorem claim9_dedup_keeps_unique_top_candidate (l : List PatternMatch)
    (m : PatternMatch) (hm : m ∈ l)
    (hmax : ∀ m' ∈ l, m' ≠ m → m'.confidence < m.confidence)
    (hdisj : ∀ m' ∈ l, m' ≠ m →
      min m.endDate m'.endDate ≤ max m.startDate m'.startDate) :
    m ∈ deduplicate l := by
  unfold deduplicate
  rcases hs : sortConfDesc l with _ | ⟨a, t⟩
  · exfalso
    have hmem : m ∈ sortConfDesc l := mem_sortConfDesc.mpr hm
    rw [hs] at hmem
    exact absurd hmem (List.not_mem_nil m)
  · have ha : a ∈ l := by
      have : a ∈ sortConfDesc l := by
        rw [hs]; exact List.mem_cons_self a t
      exact mem_sortConfDesc.mp this
    have ham : a = m := by
      by_contra hne
      have h1 : a.confidence < m.confidence := hmax a ha hne
      have hm2 : m ∈ a :: t := by
        rw [← hs]; exact mem_sortConfDesc.mpr hm
      rcases List.mem_cons.mp hm2 with rfl | hmt
      · exact hne rfl
      · have hp := pairwise_sortConfDesc l
        rw [hs, List.pairwise_cons] at hp
        exact absurd (hp.1 m hmt) (not_le.mpr h1)
    subst ham
    rw [dedupGo]
    simp only [List.any_nil, Bool.false_eq_true, if_false, List.nil_append]
    exact mem_dedupGo_of_mem t [a] a (by simp)

/-- C9 witness: a two-candidate list whose strictly-highest-confidence match
is disjoint from the other candidate; it is kept. -/
theorem claim9_witness :
    ((⟨0, 5, 9/10⟩ : PatternMatch) ∈
        ([⟨0, 5, 9/10⟩, ⟨10, 20, 1/2⟩] : List PatternMatch) ∧
      (∀ m' ∈ ([⟨0, 5, 9/10⟩, ⟨10, 20, 1/2⟩] : List PatternMatch),
        m' ≠ ⟨0, 5, 9/10⟩ → m'.confidence < (9/10 : ℚ)) ∧
      (∀ m' ∈ ([⟨0, 5, 9/10⟩, ⟨10, 20, 1/2⟩] : List PatternMatch),
        m' ≠ ⟨0, 5, 9/10⟩ →
          min (5 : ℤ) m'.endDate ≤ max (0 : ℤ) m'.startDate)) ∧
    (⟨0, 5, 9/10⟩ : PatternMatch) ∈
      deduplicate [⟨0, 5, 9/10⟩, ⟨10, 20, 1/2⟩] :=
  ⟨⟨by with_unfolding_all decide, by with_unfolding_all decide,
    by with_unfolding_all decide⟩,
   claim9_dedup_keeps_unique_top_candidate _ _
     (by with_unfolding_all decide) (by with_unfolding_all decide)
     (by with_unfolding_all decide)⟩

/-! ## Properties of the extrema extractor -/

theorem clipIdx_coe (n j : ℕ) (h : j < n) : clipIdx n (j : ℤ) = j := by
  unfold clipIdx
  split <;> omega

theorem mem_relExtrema_interior (v : List ℚ) (cmp : ℚ → ℚ → Bool) (k i : ℕ)
    (h1 : k ≤ i) (h2 : i + k < v.length)
    (hrefl : cmp (v.getD i 0) (v.getD i 0) = true) :
    i ∈ relExtrema v cmp k ↔
      ∀ j, i - k ≤ j → j ≤ i + k → cmp (v.getD i 0) (v.getD j 0) = true := by
  unfold relExtrema
  rw [List.mem_filter, List.mem_range, List.all_eq_true]
  constructor
  · rintro ⟨-, hall⟩ j hj1 hj2
    rcases Nat.lt_trichotomy j i with hji | rfl | hij
    · have hs : i - j - 1 < k := by omega
      have h := hall (i - j - 1) (List.mem_range.mpr hs)
      rw [Bool.and_eq_true] at h
      have hcast : (i : ℤ) - (((i - j - 1 : ℕ) : ℤ) + 1) = (j : ℤ) := by omega
      rw [hcast, clipIdx_coe v.length j (by omega)] at h
      exact h.2
    · exact hrefl
    · have hs : j - i - 1 < k := by omega
      have h := hall (j - i - 1) (List.mem_range.mpr hs)
      rw [Bool.and_eq_true] at h
      have hcast : (i : ℤ) + (((j - i - 1 : ℕ) : ℤ) + 1) = (j : ℤ) := by omega
      rw [hcast, clipIdx_coe v.length j (by omega)] at h
      exact h.1
  · intro hwin
    refine ⟨by omega, ?_⟩
    intro s hs
    rw [List.mem_range] at hs
    rw [Bool.and_eq_true]
    constructor
    · have hcast : (i : ℤ) + ((s : ℤ) + 1) = ((i + s + 1 : ℕ) : ℤ) := by omega
      rw [hcast, clipIdx_coe v.length (i + s + 1) (by omega)]
      exact hwin (i + s + 1) (by omega) (by omega)
    · have hcast : (i : ℤ) - ((s : ℤ) + 1) = ((i - s - 1 : ℕ) : ℤ) := by omega
      rw [hcast, clipIdx_coe v.length (i - s - 1) (by omega)]
      exact hwin (i - s - 1) (by omega) (by omega)

/-- C4 counterexample: with window `k = 1`, `argrelextrema` in its clip mode
reports the boundary indices 0 and 4 of a five-element series (together with
the interior plateau), although the claim says only indices with
`k ≤ i ≤ n-1-k` are ever reported. -/
theorem claim4_counterexample :
    localMaxIdx [5, 1, 1, 1, 5] 1 = [0, 2, 4] ∧
    localMinIdx [1, 5, 5, 5, 1] 1 = [0, 2, 4] := by
  constructor <;> with_unfolding_all decide

/-- C4 (amended): out-of-window positions are clipped to the array
boundaries, so indices within `k` of either end can be reported; for every
interior index (`k ≤ i ≤ n-1-k`) membership is exactly the claimed window
condition, and the reported index list is ascending. -/
theorem claim4_extrema_interior_window (v : List ℚ) (k i : ℕ)
    (h1 : k ≤ i) (h2 : i + k < v.length) :
    (i ∈ localMaxIdx v k ↔
      ∀ j, i - k ≤ j → j ≤ i + k → v.getD j 0 ≤ v.getD i 0) ∧
    (i ∈ localMinIdx v k ↔
      ∀ j, i - k ≤ j → j ≤ i + k → v.getD i 0 ≤ v.getD j 0) ∧
    (localMaxIdx v k).Pairwise (· < ·) ∧
    (localMinIdx v k).Pairwise (· < ·) := by
  refine ⟨?_, ?_, ?_, ?_⟩
  · have h := mem_relExtrema_interior v (fun a b => decide (b ≤ a)) k i h1 h2
      (by simp)
    unfold localMaxIdx
    rw [h]
    simp only [decide_eq_true_eq]
  · have h := mem_relExtrema_interior v (fun a b => decide (a ≤ b)) k i h1 h2
      (by simp)
    unfold localMinIdx
    rw [h]
    simp only [decide_eq_true_eq]
  · exact List.Pairwise.filter _ (List.pairwise_lt_range _)
  · exact List.Pairwise.filter _ (List.pairwise_lt_range _)

/-- C4 witness: the interior index 2 of a five-element tent series, with
window 1. -/
theorem claim4_witness :
    (1 ≤ 2 ∧ 2 + 1 < ([1, 2, 3, 2, 1] : List ℚ).length) ∧
    (2 ∈ localMaxIdx [1, 2, 3, 2, 1] 1 ↔
      ∀ j, 2 - 1 ≤ j → j ≤ 2 + 1 →
        ([1, 2, 3, 2, 1] : List ℚ).getD j 0 ≤
          ([1, 2, 3, 2, 1] : List ℚ).getD 2 0) :=
  ⟨⟨by omega, by decide⟩,
   (claim4_extrema_interior_window [1, 2, 3, 2, 1] 1 2 (by omega) (by decide)).1⟩

/-! ## The result model -/

/-- C5: `is_active_today` holds exactly when the match's (date-truncated)
end date is within three calendar days before the current date, with the
claimed boundary behaviour: an end date of today, and of today minus three
days, give `true`; today minus four days gives `false`. -/
theorem claim5_is_active_today_boundary (s e today : Date) (c : ℚ) :
    (isActiveToday ⟨s, e, c⟩ today = true ↔ today - e ≤ 3) ∧
    isActiveToday ⟨s, today, c⟩ today = true ∧
    isActiveToday ⟨s, today - 3, c⟩ today = true ∧
    isActiveToday ⟨s, today - 4, c⟩ today = false := by
  refine ⟨?_, ?_, ?_, ?_⟩ <;>
    simp only [isActiveToday, decide_eq_true_eq, decide_eq_false_iff_not, not_le]
  · constructor <;> intro <;> linarith
  · linarith
  · linarith
  · linarith

/-! ## Claim evaluations on the concrete series -/

set_option maxRecDepth 1000000

/-- C1: `VCPDetector.detect` raises (modelled `none`) on series of one bar
and of zero bars — the cadence probe `df.index[1] - df.index[0]` runs before
the minimum-length guard — while a detector that guards first (Ascending
Triangle on 29 bars) returns the empty list as the claim demands. -/
theorem claim1_vcp_raises_below_two_bars :
    vcpDetect ⟨[100], [99], [5], [0]⟩ = none ∧
    vcpDetect ⟨[], [], [], []⟩ = none ∧
    ascTriDetect ⟨List.replicate 29 100, List.replicate 29 99,
      List.replicate 29 5, (List.range 29).map fun i => (i : ℤ)⟩ = [] := by
  refine ⟨?_, ?_, ?_⟩ <;> with_unfolding_all decide

/-- C2: on the 28-bar weekly series `c2bars`, `VCPDetector.detect` emits a
single match whose confidence is -0.43 — strictly negative, so neither
`0 < confidence` nor `confidence ∈ [0, 1]` holds for every emitted match. -/
theorem claim2_vcp_emits_negative_confidence :
    vcpDetect c2bars = some [⟨28, 175, -43/100⟩] ∧ ¬(0 < (-43/100 : ℚ)) := by
  refine ⟨?_, by norm_num⟩
  with_unfolding_all decide

/-- C6: the 41-bar series `c6bars` contains a perfectly linear symmetric
V-dip between equal 100-rims (cup depth 25%, bottom exactly centered), yet
`CupAndHandleDetector.detect` accepts it and emits a match with confidence
0.75: both halves of a linear V have constant first differences, so their
standard deviations are 0 and the smoothness test `0 ≤ 0.5` passes instead
of rejecting. -/
theorem claim6_linear_v_dip_accepted :
    cupDetect c6bars = [⟨8, 32, 3/4⟩] ∧
    stdQ (diffs (pySlice c6bars.lows 8 21)) = 0 ∧
    stdQ (diffs (pySlice c6bars.lows 20 33)) = 0 := by
  refine ⟨?_, ?_, ?_⟩ <;> with_unfolding_all decide

/-! ## The handle bounds -/

theorem minQ_cons (x y : ℚ) (xs : List ℚ) :
    minQ (x :: y :: xs) = min x (minQ (y :: xs)) := rfl

theorem argminQ_lt_length (l : List ℚ) (h : l ≠ []) : argminQ l < l.length := by
  induction l with
  | nil => exact absurd rfl h
  | cons x xs ih =>
    cases xs with
    | nil => simp [argminQ]
    | cons y ys =>
      rw [argminQ]
      split
      · simp
      · have := ih (by simp)
        simpa [List.length_cons] using Nat.succ_lt_succ this

theorem getD_argminQ (l : List ℚ) (h : l ≠ []) :
    l.getD (argminQ l) 0 = minQ l := by
  induction l with
  | nil => exact absurd rfl h
  | cons x xs ih =>
    cases xs with
    | nil => simp [argminQ, minQ]
    | cons y ys =>
      rw [argminQ, minQ_cons]
      split
      · next hle => simp [min_eq_left hle]
      · next hgt =>
        rw [not_le] at hgt
        rw [List.getD_cons_succ, ih (by simp), min_eq_right (le_of_lt hgt)]

theorem pySlice_getD (l : List ℚ) (a b t : ℕ) (h : t < (pySlice l a b).length) :
    (pySlice l a b).getD t 0 = l.getD (a + t) 0 := by
  unfold pySlice at h ⊢
  rw [List.getD_eq_getElem?_getD, List.getD_eq_getElem?_getD]
  rw [List.length_take] at h
  rw [List.getElem?_take, if_pos (by omega), List.getElem?_drop]

theorem getD_add_argminQ_pySlice (l : List ℚ) (a b : ℕ)
    (h : pySlice l a b ≠ []) :
    l.getD (a + argminQ (pySlice l a b)) 0 = minQ (pySlice l a b) := by
  rw [← pySlice_getD l a b _ (argminQ_lt_length _ h)]
  exact getD_argminQ _ h

/-- C7 counterexample: on `c7bars` the pullback after the right rim retraces
5% of the cup depth — inside the claimed (2%, 50%) band, so the claim says a
handle must be recognized — yet the code recognizes no handle (its 2% lower
bound is measured against the right-rim price, and 1.25/100 < 0.02) and the
emitted match ends at the right rim, bar 32, not at the handle window end. -/
theorem claim7_counterexample :
    (0.02 < specHandleRetraceOfCupDepth c7bars.lows 41 32 24 100 25 ∧
      specHandleRetraceOfCupDepth c7bars.lows 41 32 24 100 25 < 0.5) ∧
    cupHandle c7bars.lows 41 32 24 100 (1/4) = (false, 32) ∧
    cupDetect c7bars = [⟨8, 32, 3/4⟩] := by
  refine ⟨⟨?_, ?_⟩, ?_, ?_⟩ <;> with_unfolding_all decide

/-- C7 (amended): for a cup with right rim at `rightRimIdx`, a handle is
recognized iff the search window (`cup_width // 3` bars, clamped to the
series end) extends more than three bars past the rim and the deepest low in
it gives a depth, as a fraction of the right-rim price, strictly between
0.02 and half of `cup_depth`; whenever no handle is recognized the match end
stays at the right rim. -/
theorem claim7_handle_rule (lows : List ℚ) (n rightRimIdx cupWidth : ℕ)
    (rightRim cupDepth : ℚ) (hn : n ≤ lows.length) (hr : rightRimIdx < n) :
    ((cupHandle lows n rightRimIdx cupWidth rightRim cupDepth).1 = true ↔
      (rightRimIdx + 3 < min (rightRimIdx + cupWidth / 3) (n - 1) ∧
        0.02 < (rightRim - minQ (pySlice lows rightRimIdx
          (min (rightRimIdx + cupWidth / 3) (n - 1) + 1))) / rightRim ∧
        (rightRim - minQ (pySlice lows rightRimIdx
          (min (rightRimIdx + cupWidth / 3) (n - 1) + 1))) / rightRim <
          cupDepth * 0.5)) ∧
    ((cupHandle lows n rightRimIdx cupWidth rightRim cupDepth).1 = false →
      (cupHandle lows n rightRimIdx cupWidth rightRim cupDepth).2 = rightRimIdx) := by
  by_cases hc : min (rightRimIdx + cupWidth / 3) (n - 1) ≤ rightRimIdx + 3
  · simp only [cupHandle]
    rw [if_pos hc]
    refine ⟨?_, fun _ => rfl⟩
    simp only [Bool.false_eq_true, false_iff, not_and]
    intro hlt
    omega
  · have hgt : rightRimIdx + 3 < min (rightRimIdx + cupWidth / 3) (n - 1) :=
      not_le.mp hc
    have hne : pySlice lows rightRimIdx
        (min (rightRimIdx + cupWidth / 3) (n - 1) + 1) ≠ [] := by
      have hpos : 0 < (pySlice lows rightRimIdx
          (min (rightRimIdx + cupWidth / 3) (n - 1) + 1)).length := by
        unfold pySlice
        rw [List.length_take, List.length_drop]
        omega
      exact List.length_pos.mp hpos
    simp only [cupHandle]
    rw [if_neg hc]
    dsimp only
    rw [getD_add_argminQ_pySlice lows rightRimIdx _ hne]
    constructor
    · rw [decide_eq_true_eq]
      exact ⟨fun hab => ⟨hgt, hab.1, hab.2⟩, fun h => ⟨h.2.1, h.2.2⟩⟩
    · intro hfalse
      rw [hfalse]
      simp

/-- C7 witness: the handle rule instantiated on the `c7bars` lows with the
cup found there (right rim at bar 32, width 24, rim price 100, depth 25%). -/
theorem claim7_witness :
    (41 ≤ c7bars.lows.length ∧ 32 < 41) ∧
    ((cupHandle c7bars.lows 41 32 24 100 (1/4)).1 = true ↔
      (32 + 3 < min (32 + 24 / 3) (41 - 1) ∧
        0.02 < (100 - minQ (pySlice c7bars.lows 32
          (min (32 + 24 / 3) (41 - 1) + 1))) / 100 ∧
        (100 - minQ (pySlice c7bars.lows 32
          (min (32 + 24 / 3) (41 - 1) + 1))) / 100 < (1/4) * 0.5)) :=
  ⟨⟨by with_unfolding_all decide, by omega⟩,
   (claim7_handle_rule c7bars.lows 41 32 24 100 (1/4)
     (by with_unfolding_all decide) (by omega)).1⟩

/-! ## Determinism and cadence -/

/-- C8: each embedded detector is a pure, total function of its input series
alone.  The Python `detect` bodies read no wall clock, no randomness and no
mutable shared state (the module's only clock read, `is_active_today`, is a
lazy property evaluated by consumers, never inside `detect`), and IEEE
arithmetic on a fixed operation sequence is deterministic; accordingly the
embedding makes each detector a function, and two invocations on the same
series are definitionally equal. -/
theorem claim8_detect_deterministic (b : Bars) :
    vcpDetect b = vcpDetect b ∧ ascTriDetect b = ascTriDetect b ∧
    cupDetect b = cupDetect b :=
  ⟨rfl, rfl, rfl⟩

/-- C10: on any series of at least two bars, VCP classifies the cadence as
daily exactly when the series exceeds 100 bars or the first two timestamps
are one day apart; more than 100 bars forces the daily classification
regardless of the actual cadence; under the daily classification fewer than
60 bars yield an empty result, under the non-daily one fewer than 24 bars
do; and a pivot whose collected contractions number below the cadence's
minimum (2 daily, 1 otherwise) produces no match. -/
theorem claim10_vcp_cadence_thresholds (b : Bars) (h2 : 2 ≤ barsLen b) :
    vcpIsDaily b = some (decide (100 < barsLen b) ||
      decide (firstGapDays b = some 1)) ∧
    (100 < barsLen b → vcpIsDaily b = some true) ∧
    (vcpIsDaily b = some true → barsLen b < 60 → vcpDetect b = some []) ∧
    (vcpIsDaily b = some false → barsLen b < 24 → vcpDetect b = some []) ∧
    (∀ (isDaily : Bool) (maxIdx minIdx : List ℕ) (pivotIdx : ℕ),
      (vcpContractions b maxIdx minIdx pivotIdx).length <
          vcpMinContractions isDaily →
      vcpPivotMatch b maxIdx minIdx isDaily pivotIdx = none) := by
  have hds : ∃ d0 d1 t, b.dates = d0 :: d1 :: t := by
    rcases h : b.dates with _ | ⟨d0, _ | ⟨d1, t⟩⟩
    · rw [barsLen, h] at h2
      simp at h2
    · rw [barsLen, h] at h2
      simp at h2
    · exact ⟨d0, d1, t, rfl⟩
  obtain ⟨d0, d1, t, hds⟩ := hds
  have hgap : firstGapDays b = some (d1 - d0) := by
    unfold firstGapDays
    rw [hds]
  refine ⟨?_, ?_, ?_, ?_, ?_⟩
  · unfold vcpIsDaily
    split
    · next h100 =>
      rw [decide_eq_true h100]
      simp
    · next h100 =>
      rw [decide_eq_false h100, hgap]
      have hdd : decide ((some (d1 - d0) : Option ℤ) = some 1) =
          decide (d1 - d0 = 1) :=
        decide_eq_decide.mpr (by simp)
      simp [hdd]
  · intro h100
    unfold vcpIsDaily
    rw [if_pos h100]
  · intro hd hlen
    unfold vcpDetect
    rw [hd]
    simp only [Option.map_some', vcpMinLen, if_true, Option.some.injEq]
    rw [if_pos hlen]
  · intro hd hlen
    unfold vcpDetect
    rw [hd]
    simp only [Option.map_some', vcpMinLen, Bool.false_eq_true, if_false,
      Option.some.injEq]
    rw [if_pos hlen]
  · intro isDaily maxIdx minIdx pivotIdx hlt
    simp only [vcpPivotMatch]
    rw [if_pos hlt]

/-- C10 witness: the cadence classification evaluated on the 28-bar weekly
series. -/
theorem claim10_witness :
    2 ≤ barsLen c2bars ∧
    vcpIsDaily c2bars = some (decide (100 < barsLen c2bars) ||
      decide (firstGapDays c2bars = some 1)) :=
  ⟨by with_unfolding_all decide,
   (claim10_vcp_cadence_thresholds c2bars (by with_unfolding_all decide)).1⟩

end Stocks
